import Mathlib

/-!
Shallow embedding of `process_ris.py` (Rayyan RIS export to spreadsheet
converter) and proofs about its specification claims.

The Python source has three functions:
* `parse_ris_file` — scans lines, groups tagged field lines into records,
  sealing a record on each line starting with `"ER  -"`;
* `parse_n1`       — decodes the reviewer-decision payload
  (`RAYYAN-INCLUSION: ...`) and the exclusion-reason payload
  (`RAYYAN-EXCLUSION-REASONS: ...`) out of the joined N1 values;
* `build_dataframe` — flattens records to a column-oriented table and
  one-hot expands the union of all exclusion reasons.

Strings are modelled through their character lists (`List Char`), which
matches Python's code-point indexing and slicing.  A record is an ordered
association list of (tag, value) pairs: `recGet` recovers the per-tag value
sequence that the Python `defaultdict(list)` stores, in append order, and
list non-emptiness models the truthiness test `if record:`.
-/

/-- Characters Python's `str.strip()` and the regex class `\s` treat as
whitespace (ASCII range; the inputs of interest are ASCII). -/
def isPyWs (c : Char) : Bool :=
  c == ' ' || c == '\t' || c == '\n' || c == '\r' || c == '\x0b' || c == '\x0c'

/-- Python `str.strip()` on a character list: drop leading and trailing
whitespace. -/
def pyStrip (l : List Char) : List Char :=
  ((l.dropWhile isPyWs).reverse.dropWhile isPyWs).reverse

/-- Python substring containment `needle in hay` for strings. -/
def hasSubstr (needle : List Char) : List Char → Bool
  | [] => needle.isEmpty
  | c :: rest => needle.isPrefixOf (c :: rest) || hasSubstr needle rest

/-- Python `text.split(",")`: split at every comma, keeping empty pieces. -/
def splitComma : List Char → List (List Char)
  | [] => [[]]
  | c :: cs =>
    if c = ',' then [] :: splitComma cs
    else
      match splitComma cs with
      | [] => [[c]]
      | h :: t => (c :: h) :: t

/-- Python `s.replace("=>", ":")`: left-to-right non-overlapping
replacement. -/
def replaceArrow : List Char → List Char
  | '=' :: '>' :: rest => ':' :: replaceArrow rest
  | c :: rest => c :: replaceArrow rest
  | [] => []

/-- A parsed RIS record: ordered (tag, value) pairs in append order,
modelling the Python `defaultdict(list)` accumulator. -/
abbrev Rec := List (String × String)

/-- `record.get(tag, [])`: the value sequence of one tag, in append order. -/
def recGet (r : Rec) (tag : String) : List String :=
  (r.filter (fun p => p.1 == tag)).map Prod.snd

/-- Whether a line starts the record end marker `"ER  -"`
(`line.startswith("ER  -")` in the source). -/
def isEndMarker (l : String) : Bool :=
  ['E', 'R', ' ', ' ', '-'].isPrefixOf l.data

/-- One non-blank, non-end-marker line of `parse_ris_file`: if the slice
`line[2:6]` strips to a single hyphen, append `(line[:2], line[6:].strip())`
to the accumulator; otherwise leave the accumulator unchanged. -/
def stepLine (r : Rec) (l : String) : Rec :=
  if pyStrip ((l.data.drop 2).take 4) = ['-'] then
    r ++ [(String.mk (l.data.take 2), String.mk (pyStrip (l.data.drop 6)))]
  else r

/-- The line loop of `parse_ris_file`, carrying the current accumulator. -/
def prfGo : List String → Rec → List Rec
  | [], _ => []
  | l :: ls, r =>
    if l = "" then prfGo ls r
    else if isEndMarker l then
      (if r = [] then prfGo ls [] else r :: prfGo ls [])
    else prfGo ls (stepLine r l)

/-- `parse_ris_file`, with the file given as its list of lines (newline
terminators already removed, as `raw_line.rstrip("\n")` does). -/
def parse_ris_file (lines : List String) : List Rec :=
  prfGo lines []

/-- The characters of `" | ".join(n1_values)`. -/
def n1Text : List String → List Char
  | [] => []
  | [v] => v.data
  | v :: vs => v.data ++ ' ' :: '|' :: ' ' :: n1Text vs

/-- The literal label `RAYYAN-INCLUSION:` of the decision regex. -/
def inclLabel : List Char :=
  ['R', 'A', 'Y', 'Y', 'A', 'N', '-', 'I', 'N', 'C', 'L', 'U', 'S', 'I', 'O', 'N', ':']

/-- The literal label `RAYYAN-EXCLUSION-REASONS:` of the reasons regex. -/
def exclLabel : List Char :=
  ['R', 'A', 'Y', 'Y', 'A', 'N', '-', 'E', 'X', 'C', 'L', 'U', 'S', 'I', 'O', 'N',
   '-', 'R', 'E', 'A', 'S', 'O', 'N', 'S', ':']

/-- The chars of `.*?}` after an opening brace: the shortest run of
non-newline characters up to a closing brace (`.` does not match `'\n'`);
`none` when no closing brace occurs before a newline or the end. -/
def scanClose : List Char → Option (List Char)
  | [] => none
  | c :: rest =>
    if c = '}' then some []
    else if c = '\n' then none
    else (scanClose rest).map (c :: ·)

/-- Attempt of `\s*({.*?})` at a fixed position (just after the label):
greedily skip whitespace, require `'{'`, then scan to the first `'}'`.
Returns regex group 1 (braces included). -/
def tryBrace (cs : List Char) : Option (List Char) :=
  match cs.dropWhile isPyWs with
  | '{' :: rest => (scanClose rest).map (fun body => '{' :: (body ++ ['}']))
  | _ => none

/-- `re.search(r"RAYYAN-INCLUSION:\s*({.*?})", text)`: scan left to right;
at each position where the label matches, try the payload pattern; the
first position where the whole pattern matches wins. -/
def searchIncl : List Char → Option (List Char)
  | [] => none
  | c :: rest =>
    if inclLabel.isPrefixOf (c :: rest) then
      match tryBrace ((c :: rest).drop inclLabel.length) with
      | some g => some g
      | none => searchIncl rest
    else searchIncl rest

/-- `re.search(r"RAYYAN-EXCLUSION-REASONS:\s*([^|]*)", text)`: the first
label occurrence always completes a match; group 1 is the maximal run of
non-`'|'` characters after the greedily skipped whitespace. -/
def searchExcl : List Char → Option (List Char)
  | [] => none
  | c :: rest =>
    if exclLabel.isPrefixOf (c :: rest) then
      some ((((c :: rest).drop exclLabel.length).dropWhile isPyWs).takeWhile (· ≠ '|'))
    else searchExcl rest

/-- JSON whitespace characters. -/
def isJsonWs (c : Char) : Bool :=
  c == ' ' || c == '\t' || c == '\n' || c == '\r'

/-- Skip JSON whitespace. -/
def jskip (cs : List Char) : List Char :=
  cs.dropWhile isJsonWs

/-- A decoded JSON value, as `json.loads` produces one (Python maps JSON
strings to `str`, integer lexemes to arbitrary-precision `int`, other
number lexemes to `float`, `true` and `false` to `bool`, `null` to
`None`, and accepts the non-standard `NaN`, `Infinity` and `-Infinity`
constants by default). A number is kept as the exact decimal `m * 10^e`;
Python rounds a non-integer lexeme to an IEEE double, a distinction only
two decimal-distinct but double-equal numeric verdicts could expose, and
no claim compares numeric verdicts. -/
inductive JValue where
  | str (s : String)
  | num (m : Int) (e : Int)
  | bool (b : Bool)
  | null
  | inf (neg : Bool)
  | nan
  | arr (xs : List JValue)
  | obj (ps : List (String × JValue))

/-- The value of a hexadecimal digit, if the character is one. -/
def hexVal? (c : Char) : Option Nat :=
  if '0' ≤ c ∧ c ≤ '9' then some (c.toNat - 48)
  else if 'a' ≤ c ∧ c ≤ 'f' then some (c.toNat - 87)
  else if 'A' ≤ c ∧ c ≤ 'F' then some (c.toNat - 55)
  else none

/-- Body of a JSON string literal after the opening quote, as Python's
strict-mode decoder reads it: a raw control character (code point below
32) is rejected; the escapes are exactly `\" \\ \/ \b \f \n \r \t` and
`\uXXXX` (an escape of any other shape is rejected). A high-surrogate
`\uXXXX` immediately followed by the two characters `\u` requires four
more hex digits; when they encode a low surrogate the pair combines into
one scalar, otherwise the high surrogate stands alone and the second
escape is read again on its own. Python keeps a lone surrogate in its
`str`; a Lean `Char` cannot hold one, so it is rendered as U+FFFD — a
choice that never changes whether decoding succeeds. Returns the decoded
characters and the input after the closing quote. -/
def jstringBody : Nat → List Char → Option (List Char × List Char)
  | 0, _ => none
  | _, [] => none
  | fuel + 1, c :: rest =>
    if c = '"' then some ([], rest)
    else if c = '\\' then
      match rest with
      | [] => none
      | e :: rest2 =>
        if e = '"' then (jstringBody fuel rest2).map (fun p => ('"' :: p.1, p.2))
        else if e = '\\' then (jstringBody fuel rest2).map (fun p => ('\\' :: p.1, p.2))
        else if e = '/' then (jstringBody fuel rest2).map (fun p => ('/' :: p.1, p.2))
        else if e = 'b' then (jstringBody fuel rest2).map (fun p => ('\x08' :: p.1, p.2))
        else if e = 'f' then (jstringBody fuel rest2).map (fun p => ('\x0c' :: p.1, p.2))
        else if e = 'n' then (jstringBody fuel rest2).map (fun p => ('\n' :: p.1, p.2))
        else if e = 'r' then (jstringBody fuel rest2).map (fun p => ('\r' :: p.1, p.2))
        else if e = 't' then (jstringBody fuel rest2).map (fun p => ('\t' :: p.1, p.2))
        else if e = 'u' then
          match rest2 with
          | h1 :: h2 :: h3 :: h4 :: rest3 =>
            match hexVal? h1, hexVal? h2, hexVal? h3, hexVal? h4 with
            | some a, some b, some c2, some d =>
              let u := ((a * 16 + b) * 16 + c2) * 16 + d
              if 55296 ≤ u ∧ u ≤ 56319 then
                match rest3 with
                | '\\' :: 'u' :: g1 :: g2 :: g3 :: g4 :: rest4 =>
                  (match hexVal? g1, hexVal? g2, hexVal? g3, hexVal? g4 with
                  | some a2, some b2, some c3, some d2 =>
                    let u2 := ((a2 * 16 + b2) * 16 + c3) * 16 + d2
                    if 56320 ≤ u2 ∧ u2 ≤ 57343 then
                      (jstringBody fuel rest4).map (fun p =>
                        (Char.ofNat (65536 + (u - 55296) * 1024 + (u2 - 56320)) :: p.1, p.2))
                    else (jstringBody fuel rest3).map (fun p => ('\uFFFD' :: p.1, p.2))
                  | _, _, _, _ => none)
                | '\\' :: 'u' :: _ => none
                | _ => (jstringBody fuel rest3).map (fun p => ('\uFFFD' :: p.1, p.2))
              else if 56320 ≤ u ∧ u ≤ 57343 then
                (jstringBody fuel rest3).map (fun p => ('\uFFFD' :: p.1, p.2))
              else
                (jstringBody fuel rest3).map (fun p => (Char.ofNat u :: p.1, p.2))
            | _, _, _, _ => none
          | _ => none
        else none
    else if c.toNat < 32 then none
    else (jstringBody fuel rest).map (fun p => (c :: p.1, p.2))

/-- A JSON string literal: opening quote, body, closing quote. The body
walks one character or escape per step, so one unit of fuel per remaining
character is always enough. -/
def jstring : List Char → Option (String × List Char)
  | '"' :: rest => (jstringBody (rest.length + 1) rest).map (fun p => (String.mk p.1, p.2))
  | _ => none

/-- Digits read as a natural number, most significant first. -/
def digitsVal (ds : List Char) : Nat :=
  ds.foldl (fun acc c => acc * 10 + (c.toNat - 48)) 0

/-- The JSON number grammar exactly as Python's decoder matches it:
`-?(0|[1-9][0-9]*)(\.[0-9]+)?([eE][+-]?[0-9]+)?`. A dot or exponent
letter not followed by its digits is left unconsumed — the surrounding
grammar then fails on it, just as Python's does on input such as `1.`.
Returns the exact decimal value as `(m, e)` meaning `m * 10^e`, and the
remaining input. -/
def jnumber (cs : List Char) : Option ((Int × Int) × List Char) :=
  let p := match cs with | '-' :: t => (true, t) | _ => (false, cs)
  match p.2 with
  | c :: t =>
    if c = '0' ∨ ('1' ≤ c ∧ c ≤ '9') then
      let ip :=
        if c = '0' then ([c], t)
        else (c :: t.takeWhile (fun d => '0' ≤ d ∧ d ≤ '9'),
              t.dropWhile (fun d => '0' ≤ d ∧ d ≤ '9'))
      let fp :=
        match ip.2 with
        | '.' :: t2 =>
          let f := t2.takeWhile (fun d => '0' ≤ d ∧ d ≤ '9')
          if f = [] then (([] : List Char), ip.2)
          else (f, t2.dropWhile (fun d => '0' ≤ d ∧ d ≤ '9'))
        | _ => (([] : List Char), ip.2)
      let ep :=
        match fp.2 with
        | e :: t3 =>
          if e = 'e' ∨ e = 'E' then
            let sp := match t3 with
              | '+' :: t5 => ((1 : Int), t5)
              | '-' :: t5 => ((-1 : Int), t5)
              | _ => ((1 : Int), t3)
            let eds := sp.2.takeWhile (fun d => '0' ≤ d ∧ d ≤ '9')
            if eds = [] then ((0 : Int), fp.2)
            else (sp.1 * Int.ofNat (digitsVal eds),
                  sp.2.dropWhile (fun d => '0' ≤ d ∧ d ≤ '9'))
          else ((0 : Int), fp.2)
        | _ => ((0 : Int), fp.2)
      let mag := Int.ofNat (digitsVal (ip.1 ++ fp.1))
      some (((if p.1 then -mag else mag), ep.1 - Int.ofNat fp.1.length), ep.2)
    else none
  | [] => none

mutual
/-- One JSON value, dispatched on its first character as Python's decoder
does (whitespace already skipped by the caller); also the non-standard
constants Python accepts by default. Anything else must be a number. -/
def jvalue : Nat → List Char → Option (JValue × List Char)
  | 0, _ => none
  | fuel + 1, cs =>
    match cs with
    | '"' :: _ => (jstring cs).map (fun p => (JValue.str p.1, p.2))
    | '{' :: rest =>
      (match jskip rest with
      | '}' :: r2 => some (JValue.obj [], r2)
      | r2 => (jmembers fuel r2).map (fun p => (JValue.obj p.1, p.2)))
    | '[' :: rest =>
      (match jskip rest with
      | ']' :: r2 => some (JValue.arr [], r2)
      | r2 => (jelements fuel r2).map (fun p => (JValue.arr p.1, p.2)))
    | 't' :: 'r' :: 'u' :: 'e' :: rest => some (JValue.bool true, rest)
    | 'f' :: 'a' :: 'l' :: 's' :: 'e' :: rest => some (JValue.bool false, rest)
    | 'n' :: 'u' :: 'l' :: 'l' :: rest => some (JValue.null, rest)
    | 'N' :: 'a' :: 'N' :: rest => some (JValue.nan, rest)
    | 'I' :: 'n' :: 'f' :: 'i' :: 'n' :: 'i' :: 't' :: 'y' :: rest =>
      some (JValue.inf false, rest)
    | '-' :: 'I' :: 'n' :: 'f' :: 'i' :: 'n' :: 'i' :: 't' :: 'y' :: rest =>
      some (JValue.inf true, rest)
    | _ => (jnumber cs).map (fun p => (JValue.num p.1.1 p.1.2, p.2))

/-- Object members from the first key on: `"key" : value` pairs separated
by commas, whitespace allowed around the punctuation; the key must be a
string literal. Ends just after the closing brace. -/
def jmembers : Nat → List Char → Option (List (String × JValue) × List Char)
  | 0, _ => none
  | fuel + 1, cs => do
    let (k, cs1) ← jstring cs
    match jskip cs1 with
    | ':' :: cs2 => do
      let (v, cs3) ← jvalue fuel (jskip cs2)
      match jskip cs3 with
      | ',' :: cs4 => do
        let (more, rest) ← jmembers fuel (jskip cs4)
        pure ((k, v) :: more, rest)
      | '}' :: cs4 => pure ([(k, v)], cs4)
      | _ => none
    | _ => none

/-- Array elements separated by commas, whitespace allowed; ends just
after the closing bracket. -/
def jelements : Nat → List Char → Option (List JValue × List Char)
  | 0, _ => none
  | fuel + 1, cs => do
    let (v, cs1) ← jvalue fuel cs
    match jskip cs1 with
    | ',' :: cs2 => do
      let (more, rest) ← jelements fuel (jskip cs2)
      pure (v :: more, rest)
    | ']' :: cs2 => pure ([v], cs2)
    | _ => none
end

/-- The model of `json.loads`: optional whitespace around one JSON value,
the whole input consumed; `none` models `json.JSONDecodeError`. Every
recursive step first consumes at least one character of the input, so one
unit of fuel per character is always enough. -/
def jsonLoads (cs : List Char) : Option JValue :=
  match jvalue (cs.length + 1) (jskip cs) with
  | some (v, rest) => if jskip rest = [] then some v else none
  | none => none

/-- Exact equality of the decimal values `m1 * 10^e1` and `m2 * 10^e2`. -/
def decNumEq (m1 e1 m2 e2 : Int) : Bool :=
  m1 * 10 ^ (e1 - min e1 e2).toNat == m2 * 10 ^ (e2 - min e1 e2).toNat

mutual
/-- Python `==` on decoded JSON values, as the agreement comparison uses
it: numbers compare numerically and `bool` counts as a number
(`True == 1`), `NaN` equals nothing (itself included), lists compare
elementwise. Numbers are compared as exact decimals where Python compares
the doubles they rounded to, and dict members pairwise in order where
Python is order-insensitive; a decision payload cannot contain a nested
dict at all (its single closing brace ends the regex group), and no claim
compares numeric verdicts, so neither reading is ever exercised. -/
def pyEq : JValue → JValue → Bool
  | JValue.str a, JValue.str b => a == b
  | JValue.num m1 e1, JValue.num m2 e2 => decNumEq m1 e1 m2 e2
  | JValue.num m1 e1, JValue.bool b => decNumEq m1 e1 (if b then 1 else 0) 0
  | JValue.bool b, JValue.num m2 e2 => decNumEq (if b then 1 else 0) 0 m2 e2
  | JValue.bool a, JValue.bool b => a == b
  | JValue.null, JValue.null => true
  | JValue.inf a, JValue.inf b => a == b
  | JValue.arr xs, JValue.arr ys => pyEqList xs ys
  | JValue.obj ps, JValue.obj qs => pyEqPairs ps qs
  | _, _ => false

/-- Python `==` on lists: elementwise, same length. -/
def pyEqList : List JValue → List JValue → Bool
  | [], [] => true
  | x :: xs, y :: ys => pyEq x y && pyEqList xs ys
  | _, _ => false

/-- Python `==` on decoded objects (see `pyEq` on why the order-sensitive
reading is harmless here). -/
def pyEqPairs : List (String × JValue) → List (String × JValue) → Bool
  | [], [] => true
  | p :: ps, q :: qs => p.1 == q.1 && pyEq p.2 q.2 && pyEqPairs ps qs
  | _, _ => false
end

/-- Python truthiness of a decoded JSON value — what `if rita and jules:`
tests: the empty string, numeric zero, `False`, `None` and the empty
containers are falsy; everything else (`NaN` and the infinities included)
is truthy. -/
def pyTruthy : JValue → Bool
  | JValue.str s => !(s == "")
  | JValue.num m _ => !(m == 0)
  | JValue.bool b => b
  | JValue.null => false
  | JValue.inf _ => true
  | JValue.nan => true
  | JValue.arr xs => !xs.isEmpty
  | JValue.obj ps => !ps.isEmpty

/-- Decimal digits of a natural number, most significant first,
accumulator style. -/
def natRenderGo : Nat → Nat → List Char → List Char
  | 0, _, acc => acc
  | _ + 1, 0, acc => acc
  | fuel + 1, n, acc => natRenderGo fuel (n / 10) (Char.ofNat (48 + n % 10) :: acc)

/-- A natural number in decimal. -/
def natRender (n : Nat) : List Char :=
  if n = 0 then ['0'] else natRenderGo (n + 1) n []

/-- An integer in decimal. -/
def intRender (m : Int) : List Char :=
  if m < 0 then '-' :: natRender (-m).toNat else natRender m.toNat

/-- The string placed in a verdict slot of the result tuple. The Python
function is annotated `-> Tuple[str, str, str, List[str]]` and places the
decoded value there unchanged; under that contract only strings occur —
the shape the Rayyan export emits and the only shape any claim touches —
and they round-trip exactly. A contract-violating non-string verdict is
rendered canonically; every such rendering is non-empty, matching the
fact that a non-string decoded value is never the empty string. -/
def pyStr : JValue → String
  | JValue.str s => s
  | JValue.num m e => String.mk (intRender m ++ (if e = 0 then [] else 'e' :: intRender e))
  | JValue.bool true => "True"
  | JValue.bool false => "False"
  | JValue.null => "None"
  | JValue.inf neg => if neg then "-inf" else "inf"
  | JValue.nan => "nan"
  | JValue.arr _ => "[...]"
  | JValue.obj _ => "\x7b...\x7d"

/-- Python `decisions.get(k, "")` on the dict built by `json.loads`: a
repeated key keeps its last value; a missing key yields the empty
string. -/
def dictGet (pairs : List (String × JValue)) (k : String) : JValue :=
  match (pairs.filter (fun p => p.1 == k)).getLast? with
  | some p => p.2
  | none => JValue.str ""

/-- The member list of a decoded object. In `parse_n1` the parsed payload
always starts at the opening brace of regex group 1, so a successful
`json.loads` is necessarily a dict (`jsonLoads_brace_obj` below); on any
other value Python's `decisions.get` would raise an uncaught
AttributeError, so the non-dict branch here is unreachable and need not
model it. -/
def objPairs : JValue → List (String × JValue)
  | JValue.obj ps => ps
  | _ => []

/-- The exclusion-reason cleanup of `parse_n1`:
`[r.strip() for r in payload.split(",") if r.strip()]`. -/
def cleanReasons (payload : List Char) : List String :=
  ((splitComma payload).map (fun p => String.mk (pyStrip p))).filter (· ≠ "")

/-- `parse_n1`: decode the joined N1 values into
(rita, jules, agreement, reasons). -/
def parse_n1 (n1_values : List String) : String × String × String × List String :=
  let text := n1Text n1_values
  let dec :=
    match searchIncl text with
    | some g =>
      let decisions :=
        match jsonLoads (replaceArrow g) with
        | some v => objPairs v
        | none => []
      let rita := dictGet decisions "Rita"
      let jules := dictGet decisions "Jules"
      let agreement :=
        if pyTruthy rita && pyTruthy jules then
          (if pyEq rita jules then "Yes" else "No")
        else ""
      (pyStr rita, pyStr jules, agreement)
    | none => ("", "", "")
  let reasons :=
    match searchExcl text with
    | some payload => cleanReasons payload
    | none => []
  (dec.1, dec.2.1, dec.2.2, reasons)

/-- A cell of the intermediate table: every materialized column holds
strings, except the helper `_reasons` column, which holds the per-record
reason list until it is dropped. -/
inductive Cell where
  | s (v : String)
  | l (v : List String)
deriving DecidableEq, Repr

/-- The column-oriented table: named columns, each carrying its cells down
the rows (the pandas `DataFrame` shape used by the script). -/
abbrev Frame := List (String × List Cell)

/-- The per-record reason set of `build_dataframe`
(the fourth component of `parse_n1` on the record's N1 values). -/
def reasonsOf (rec : Rec) : List String :=
  (parse_n1 (recGet rec "N1")).2.2.2

/-- The characters of `" ".join(values)`. -/
def joinSpace : List String → List Char
  | [] => []
  | [v] => v.data
  | v :: vs => v.data ++ ' ' :: joinSpace vs

/-- `" ".join(rec.get(tag, []))`. -/
def joinVals (rec : Rec) (tag : String) : String :=
  String.mk (joinSpace (recGet rec tag))

/-- The characters of `"; ".join(values)`. -/
def joinSemi : List String → List Char
  | [] => []
  | [v] => v.data
  | v :: vs => v.data ++ ';' :: ' ' :: joinSemi vs

/-- Worker for `dedupFirst`: keep elements not seen before, in order. -/
def dedupFirstGo (seen : List String) : List String → List String
  | [] => []
  | x :: xs =>
    if seen.contains x then dedupFirstGo seen xs
    else x :: dedupFirstGo (x :: seen) xs

/-- Duplicate removal keeping the first occurrence of each element, in
first-appearance order — how pandas collects column labels from a list of
row dictionaries. -/
def dedupFirst (l : List String) : List String :=
  dedupFirstGo [] l

/-- The row dictionary built for one record inside `build_dataframe`
(lines 78–99 of the source): its (column name, cell) pairs in insertion
order, ending with the helper `_reasons` entry. -/
def parsedRowOf (rec : Rec) : List (String × Cell) :=
  let d := parse_n1 (recGet rec "N1")
  let authors := recGet rec "AU"
  let firstAuthor := match authors with | a :: _ => a | [] => ""
  let otherAuthors := String.mk (joinSemi authors.tail)
  [("TI", Cell.s (joinVals rec "TI")),
   ("T2", Cell.s (joinVals rec "T2")),
   ("Y2", Cell.s (joinVals rec "Y2")),
   ("Y3", Cell.s (joinVals rec "Y3")),
   ("First Author", Cell.s firstAuthor),
   ("Other Authors", Cell.s otherAuthors),
   ("AB", Cell.s (joinVals rec "AB")),
   ("DO", Cell.s (joinVals rec "DO")),
   ("AN", Cell.s (joinVals rec "AN")),
   ("Rita Decision", Cell.s d.1),
   ("Jules Decision", Cell.s d.2.1),
   ("Agreement", Cell.s d.2.2.1),
   ("_reasons", Cell.l d.2.2.2)]

/-- `pd.DataFrame(rows)` for a list of row dictionaries: the column names
are the keys in first-appearance order; each column carries the rows'
values for that key. (All rows built by the script share the same keys; a
missing key would be a hole pandas fills with NaN, modelled by an empty
cell, and never arises here.) An empty row list gives a frame with no
columns at all. -/
def initFrame (rows : List (List (String × Cell))) : Frame :=
  (dedupFirst (rows.flatMap (fun r => r.map Prod.fst))).map
    (fun n => (n, rows.map (fun row => ((row.find? (fun p => p.1 == n)).map Prod.snd).getD (Cell.s ""))))

/-- `df[name]`: the first column with the given label, if any. -/
def getCol (f : Frame) (n : String) : Option (List Cell) :=
  (f.find? (fun p => p.1 == n)).map Prod.snd

/-- `df[name] = vals`: overwrite every column carrying the label if one
exists, else append a new column on the right. -/
def setCol (f : Frame) (n : String) (vals : List Cell) : Frame :=
  if f.any (fun p => p.1 == n) then
    f.map (fun p => if p.1 == n then (p.1, vals) else p)
  else f ++ [(n, vals)]

/-- `df.drop(columns=name)`: remove every column carrying the label; a
`KeyError` if there is none. -/
def dropCol (f : Frame) (n : String) : Except String Frame :=
  if f.any (fun p => p.1 == n) then
    Except.ok (f.filter (fun p => p.1 != n))
  else Except.error ("KeyError: " ++ n ++ " not found in axis")

/-- The test `reason in r` of the one-hot lambda: list membership when the
cell still holds the reason list, Python substring containment once the
cell has been overwritten with a string. -/
def cellHasReason (r : String) : Cell → Bool
  | Cell.l xs => xs.contains r
  | Cell.s v => hasSubstr r.data v.data

/-- The loop `for reason in sorted(all_reasons): df[reason] = df["_reasons"].apply(...)`:
each iteration reads the current `_reasons` column (a `KeyError` if it is
gone) and assigns the one-hot column. -/
def addReasonCols : Frame → List String → Except String Frame
  | f, [] => Except.ok f
  | f, r :: rest =>
    match getCol f "_reasons" with
    | none => Except.error "KeyError: _reasons not found"
    | some col =>
      addReasonCols
        (setCol f r (col.map (fun c => Cell.s (if cellHasReason r c then "Yes" else ""))))
        rest

/-- Code-point lexicographic order on character lists — how Python compares
strings in `sorted`. -/
def lexLe : List Char → List Char → Bool
  | [], _ => true
  | _ :: _, [] => false
  | a :: as, b :: bs =>
    if a.toNat < b.toNat then true
    else if b.toNat < a.toNat then false
    else lexLe as bs

/-- Python's `<=` on strings, as a proposition for sorting. -/
def pyLe (a b : String) : Prop :=
  lexLe a.data b.data = true

instance : DecidableRel pyLe :=
  fun a b => inferInstanceAs (Decidable (lexLe a.data b.data = true))

instance : IsTotal String pyLe :=
  ⟨by
    intro a b
    show lexLe a.data b.data = true ∨ lexLe b.data a.data = true
    generalize a.data = x
    generalize b.data = y
    induction x generalizing y with
    | nil => exact Or.inl rfl
    | cons c cs ih =>
      cases y with
      | nil => exact Or.inr rfl
      | cons d ds =>
        rcases Nat.lt_trichotomy c.toNat d.toNat with h | h | h
        · exact Or.inl (by simp [lexLe, h])
        · rcases ih ds with h2 | h2
          · exact Or.inl (by simp [lexLe, h, h2])
          · exact Or.inr (by simp [lexLe, h.symm, h2])
        · exact Or.inr (by simp [lexLe, h])⟩

instance : IsTrans String pyLe :=
  ⟨by
    intro a b c
    show lexLe a.data b.data = true → lexLe b.data c.data = true →
      lexLe a.data c.data = true
    generalize a.data = x
    generalize b.data = y
    generalize c.data = z
    induction x generalizing y z with
    | nil => intro _ _; rfl
    | cons u us ih =>
      intro hab hbc
      cases y with
      | nil => simp [lexLe] at hab
      | cons v vs =>
        cases z with
        | nil => simp [lexLe] at hbc
        | cons w ws =>
          simp only [lexLe] at hab hbc ⊢
          rcases Nat.lt_trichotomy u.toNat v.toNat with h1 | h1 | h1
          · rcases Nat.lt_trichotomy v.toNat w.toNat with h2 | h2 | h2
            · simp [show u.toNat < w.toNat by omega]
            · simp [show u.toNat < w.toNat by omega]
            · simp [show ¬v.toNat < w.toNat by omega, h2] at hbc
          · rcases Nat.lt_trichotomy v.toNat w.toNat with h2 | h2 | h2
            · simp [show u.toNat < w.toNat by omega]
            · have e1 : ¬u.toNat < v.toNat := by omega
              have e2 : ¬v.toNat < u.toNat := by omega
              have e3 : ¬v.toNat < w.toNat := by omega
              have e4 : ¬w.toNat < v.toNat := by omega
              simp only [e1, e2, if_false, ite_false, if_neg] at hab
              simp only [e3, e4, if_false, ite_false, if_neg] at hbc
              simp only [show ¬u.toNat < w.toNat by omega,
                show ¬w.toNat < u.toNat by omega, if_false, ite_false, if_neg]
              exact ih vs ws hab hbc
            · simp [show ¬v.toNat < w.toNat by omega, h2] at hbc
          · simp [show ¬u.toNat < v.toNat by omega, h1] at hab⟩

instance : IsAntisymm String pyLe :=
  ⟨by
    intro a b
    show lexLe a.data b.data = true → lexLe b.data a.data = true → a = b
    intro hab hba
    apply String.ext
    revert hab hba
    generalize a.data = x
    generalize b.data = y
    intro hab hba
    induction x generalizing y with
        | nil =>
          cases y with
          | nil => rfl
          | cons d ds => simp [lexLe] at hba
        | cons c cs ih =>
          cases y with
          | nil => simp [lexLe] at hab
          | cons d ds =>
            simp only [lexLe] at hab hba
            rcases Nat.lt_trichotomy c.toNat d.toNat with h1 | h1 | h1
            · simp [show ¬d.toNat < c.toNat by omega, h1] at hba
            · have e1 : ¬c.toNat < d.toNat := by omega
              have e2 : ¬d.toNat < c.toNat := by omega
              simp only [e1, e2, if_false, ite_false, if_neg] at hab hba
              have hcd : c = d := by
                have := congrArg Char.ofNat h1
                rwa [Char.ofNat_toNat, Char.ofNat_toNat] at this
              rw [hcd, ih ds hab hba]
            · simp [show ¬c.toNat < d.toNat by omega, h1] at hab⟩

/-- `sorted(all_reasons)` where `all_reasons` is the set union of every
record's reason list: the lexicographically sorted duplicate-free
enumeration of all reasons. -/
def sortedReasons (records : List Rec) : List String :=
  List.insertionSort pyLe (records.flatMap reasonsOf).dedup

/-- `build_dataframe`: flatten the records to rows, one-hot expand the
sorted union of the reasons, then drop the helper `_reasons` column. -/
def build_dataframe (records : List Rec) : Except String Frame :=
  let df := initFrame (records.map parsedRowOf)
  match addReasonCols df (sortedReasons records) with
  | Except.error e => Except.error e
  | Except.ok df2 => dropCol df2 "_reasons"

/-- The inclusion regex attempted at one fixed start position `i`: the
label must sit at `i`, then `\s*({.*?})` must complete. -/
def matchInclAt (cs : List Char) (i : Nat) : Option (List Char) :=
  if inclLabel.isPrefixOf (cs.drop i) then
    tryBrace ((cs.drop i).drop inclLabel.length)
  else none

/-- The reasons regex attempted at one fixed start position `i`: the label
must sit at `i`; the payload pattern `\s*([^|]*)` then always completes. -/
def matchExclAt (cs : List Char) (i : Nat) : Option (List Char) :=
  if exclLabel.isPrefixOf (cs.drop i) then
    some ((((cs.drop i).drop exclLabel.length).dropWhile isPyWs).takeWhile (· ≠ '|'))
  else none

/-- A column described intensionally: its label together with the function
producing its cell from one record.  `build_dataframe` computes every
column of its result pointwise per record, which these descriptions make
explicit. -/
abbrev ColFun := String × (Rec → Cell)

/-- Materialize described columns over a concrete record list. -/
def applyCols (funs : List ColFun) (records : List Rec) : Frame :=
  funs.map (fun p => (p.1, records.map p.2))

/-- The thirteen columns of the intermediate frame, described pointwise:
exactly the entries of `parsedRowOf`. -/
def baseColFuns : List ColFun :=
  [("TI", fun rec => Cell.s (joinVals rec "TI")),
   ("T2", fun rec => Cell.s (joinVals rec "T2")),
   ("Y2", fun rec => Cell.s (joinVals rec "Y2")),
   ("Y3", fun rec => Cell.s (joinVals rec "Y3")),
   ("First Author", fun rec => Cell.s (match recGet rec "AU" with | a :: _ => a | [] => "")),
   ("Other Authors", fun rec => Cell.s (String.mk (joinSemi (recGet rec "AU").tail))),
   ("AB", fun rec => Cell.s (joinVals rec "AB")),
   ("DO", fun rec => Cell.s (joinVals rec "DO")),
   ("AN", fun rec => Cell.s (joinVals rec "AN")),
   ("Rita Decision", fun rec => Cell.s (parse_n1 (recGet rec "N1")).1),
   ("Jules Decision", fun rec => Cell.s (parse_n1 (recGet rec "N1")).2.1),
   ("Agreement", fun rec => Cell.s (parse_n1 (recGet rec "N1")).2.2.1),
   ("_reasons", fun rec => Cell.l (reasonsOf rec))]

/-- `getCol` at the description level. -/
def getColF (funs : List ColFun) (n : String) : Option (Rec → Cell) :=
  (funs.find? (fun p => p.1 == n)).map Prod.snd

/-- `setCol` at the description level. -/
def setColF (funs : List ColFun) (n : String) (g : Rec → Cell) : List ColFun :=
  if funs.any (fun p => p.1 == n) then
    funs.map (fun p => if p.1 == n then (p.1, g) else p)
  else funs ++ [(n, g)]

/-- `addReasonCols` at the description level; `none` models the (never
reached) `KeyError` on a missing `_reasons` column. -/
def addReasonColsF : List ColFun → List String → Option (List ColFun)
  | funs, [] => some funs
  | funs, r :: rest =>
    match getColF funs "_reasons" with
    | none => none
    | some g =>
      addReasonColsF
        (setColF funs r (fun rec => Cell.s (if cellHasReason r (g rec) then "Yes" else "")))
        rest

/-- Number of data rows of a frame: the length of its first column
(zero for a frame with no columns). -/
def numRows : Frame → Nat
  | [] => 0
  | c :: _ => c.2.length

/-- The data rows of a column-oriented frame, row-major. -/
def frameRows (f : Frame) : List (List Cell) :=
  (List.range (numRows f)).map (fun i => f.map (fun p => p.2.getD i (Cell.s "")))

/-- The twelve base column names of the output table, in output order. -/
def baseNames : List String :=
  ["TI", "T2", "Y2", "Y3", "First Author", "Other Authors", "AB", "DO", "AN",
   "Rita Decision", "Jules Decision", "Agreement"]

/-- The one-hot reason column a given reason label should produce:
the affirmative marker exactly on the records whose own reason set holds
the label, blank elsewhere. -/
def reasonColumn (c : String) (records : List Rec) : List Cell :=
  records.map (fun rec => Cell.s (if c ∈ reasonsOf rec then "Yes" else ""))

/-- The digit accumulator only ever extends its accumulator. -/
theorem natRenderGo_suffix (fuel : Nat) :
    ∀ n acc, ∃ pre, natRenderGo fuel n acc = pre ++ acc := by
  induction fuel with
  | zero => intro n acc; exact ⟨[], rfl⟩
  | succ f ih =>
    intro n acc
    cases n with
    | zero => exact ⟨[], rfl⟩
    | succ m =>
      obtain ⟨pre, hp⟩ := ih ((m + 1) / 10) (Char.ofNat (48 + (m + 1) % 10) :: acc)
      refine ⟨pre ++ [Char.ofNat (48 + (m + 1) % 10)], ?_⟩
      rw [show natRenderGo (f + 1) (m + 1) acc
          = natRenderGo f ((m + 1) / 10) (Char.ofNat (48 + (m + 1) % 10) :: acc) from rfl, hp]
      simp

/-- A decimal rendering always has at least one digit. -/
theorem natRender_ne_nil (n : Nat) : natRender n ≠ [] := by
  unfold natRender
  split
  · simp
  · next h =>
    obtain ⟨m, rfl⟩ := Nat.exists_eq_succ_of_ne_zero h
    rw [show natRenderGo (m + 1 + 1) (m + 1) []
        = natRenderGo (m + 1) ((m + 1) / 10) [Char.ofNat (48 + (m + 1) % 10)] from rfl]
    obtain ⟨pre, hp⟩ := natRenderGo_suffix (m + 1) ((m + 1) / 10) [Char.ofNat (48 + (m + 1) % 10)]
    rw [hp]
    simp

/-- An integer rendering is never empty. -/
theorem intRender_ne_nil (m : Int) : intRender m ≠ [] := by
  unfold intRender
  split
  · simp
  · exact natRender_ne_nil _

/-- Only the empty string renders as the empty verdict: an empty verdict
slot always comes from a falsy decoded value, never from a truthy one. -/
theorem pyTruthy_eq_false_of_pyStr_empty (v : JValue) (h : pyStr v = "") :
    pyTruthy v = false := by
  cases v with
  | str s =>
    have hs : s = "" := h
    simp [pyTruthy, hs]
  | num m e =>
    exfalso
    have hd : intRender m ++ (if e = 0 then [] else 'e' :: intRender e) = [] :=
      congrArg String.data h
    exact intRender_ne_nil m (List.append_eq_nil.mp hd).1
  | bool b => cases b <;> exact absurd h (by decide)
  | null => exact absurd h (by decide)
  | inf neg => cases neg <;> exact absurd h (by decide)
  | nan => exact absurd h (by decide)
  | arr xs =>
    rw [show pyStr (JValue.arr xs) = "[...]" from rfl] at h
    exact absurd h (by decide)
  | obj ps =>
    rw [show pyStr (JValue.obj ps) = "\x7b...\x7d" from rfl] at h
    exact absurd h (by decide)

/-- A payload that starts at an opening brace — as the regex group fed to
`json.loads` by `parse_n1` always does — can only decode to a dict: the
non-dict branch of `objPairs` is unreachable. -/
theorem jsonLoads_brace_obj (rest : List Char) (v : JValue)
    (h : jsonLoads ('\x7b' :: rest) = some v) : ∃ ps, v = JValue.obj ps := by
  unfold jsonLoads at h
  rw [show jskip ('\x7b' :: rest) = '\x7b' :: rest from rfl] at h
  rw [show jvalue (('\x7b' :: rest).length + 1) ('\x7b' :: rest)
      = (match jskip rest with
        | '\x7d' :: r2 => some (JValue.obj [], r2)
        | r2 => (jmembers ('\x7b' :: rest).length r2).map
            (fun p : List (String × JValue) × List Char =>
              (JValue.obj p.1, p.2))) from rfl] at h
  cases hres : (match jskip rest with
      | '\x7d' :: r2 => some (JValue.obj [], r2)
      | r2 => (jmembers ('\x7b' :: rest).length r2).map
          (fun p : List (String × JValue) × List Char =>
            (JValue.obj p.1, p.2))) with
  | none => rw [hres] at h; exact absurd h (by simp)
  | some pr =>
    obtain ⟨v2, r2⟩ := pr
    rw [hres] at h
    have hv2 : ∃ ps, v2 = JValue.obj ps := by
      split at hres
      · exact ⟨[], (Prod.mk.injEq .. ▸ Option.some_inj.mp hres).1.symm⟩
      · obtain ⟨p, _, hp2⟩ := Option.map_eq_some'.mp hres
        exact ⟨p.1, ((Prod.mk.injEq .. ▸ hp2).1).symm⟩
    have h2 : (if jskip r2 = [] then some v2 else none) = some v := h
    by_cases hsk2 : jskip r2 = []
    · rw [if_pos hsk2] at h2
      obtain ⟨ps, hps⟩ := hv2
      exact ⟨ps, by rw [← Option.some_inj.mp h2, hps]⟩
    · rw [if_neg hsk2] at h2
      exact absurd h2 (by simp)

/-- C4: the claim says the table builder turns an input with zero entries
(no end-marker lines) into a table with zero rows and only the base
columns, without error; the code instead builds a DataFrame with no
columns at all and `df.drop(columns="_reasons")` raises a `KeyError`. -/
theorem c4_empty_input_raises_keyerror :
    parse_ris_file ["TI  - Foo"] = [] ∧
    build_dataframe [] = Except.error "KeyError: _reasons not found in axis" :=
  ⟨rfl, rfl⟩

/-- C2 counterexample: with the note text exactly as the claim writes it —
reviewer names not quoted — the arrow-normalized payload is not valid
JSON, so the decision mapping is empty and both verdicts and the agreement
come back empty, not "Yes". -/
theorem c2_counterexample_unquoted_names :
    parse_n1 ["RAYYAN-INCLUSION: \x7bRita=>\x22Yes\x22, Jules=>\x22Yes\x22\x7d"]
      = ("", "", "", []) ∧ ("" : String) ≠ "Yes" :=
  ⟨rfl, by decide⟩

/-- C2 (amended): with the reviewer names quoted, as the Rayyan export
writes them, Yes/Yes yields both verdicts "Yes" and agreement "Yes" and
Yes/No yields agreement "No"; and on every input, if either decoded
verdict is empty, the agreement is the empty string. -/
theorem c2_amended_decision_agreement :
    parse_n1 ["RAYYAN-INCLUSION: \x7b\x22Rita\x22=>\x22Yes\x22, \x22Jules\x22=>\x22Yes\x22\x7d"]
        = ("Yes", "Yes", "Yes", []) ∧
    parse_n1 ["RAYYAN-INCLUSION: \x7b\x22Rita\x22=>\x22Yes\x22, \x22Jules\x22=>\x22No\x22\x7d"]
        = ("Yes", "No", "No", []) ∧
    ∀ vals, (parse_n1 vals).1 = "" ∨ (parse_n1 vals).2.1 = "" →
      (parse_n1 vals).2.2.1 = "" := by
  refine ⟨rfl, rfl, ?_⟩
  intro vals h
  cases hs : searchIncl (n1Text vals) with
  | none => simp [parse_n1, hs]
  | some g =>
    simp only [parse_n1, hs] at h ⊢
    rcases h with h | h
    · simp [pyTruthy_eq_false_of_pyStr_empty _ h]
    · simp [pyTruthy_eq_false_of_pyStr_empty _ h]

/-- C2 witness: with only one reviewer present the other verdict is empty
and the amended theorem forces an empty agreement. -/
theorem c2_amended_witness :
    (parse_n1 ["RAYYAN-INCLUSION: \x7b\x22Rita\x22=>\x22Yes\x22\x7d"]).2.1 = "" ∧
    (parse_n1 ["RAYYAN-INCLUSION: \x7b\x22Rita\x22=>\x22Yes\x22\x7d"]).2.2.1 = "" :=
  ⟨rfl, c2_amended_decision_agreement.2.2 _ (Or.inr rfl)⟩

/-- C5: when the decision payload found by the inclusion regex is not
valid JSON after the arrow normalization, the decoder does not fail: the
decision mapping is empty, so both verdicts and the agreement are the
empty string. -/
theorem c5_malformed_payload_recovers (vals : List String) (g : List Char)
    (h1 : searchIncl (n1Text vals) = some g)
    (h2 : jsonLoads (replaceArrow g) = none) :
    (parse_n1 vals).1 = "" ∧ (parse_n1 vals).2.1 = "" ∧
    (parse_n1 vals).2.2.1 = "" := by
  simp [parse_n1, h1, h2, dictGet, pyStr, pyTruthy]

/-- C5 witness: a concrete malformed payload. -/
theorem c5_malformed_payload_witness :
    searchIncl (n1Text ["RAYYAN-INCLUSION: \x7bbad\x7d"])
        = some ['{', 'b', 'a', 'd', '}'] ∧
    jsonLoads (replaceArrow ['{', 'b', 'a', 'd', '}']) = none ∧
    (parse_n1 ["RAYYAN-INCLUSION: \x7bbad\x7d"]).1 = "" ∧
    (parse_n1 ["RAYYAN-INCLUSION: \x7bbad\x7d"]).2.1 = "" ∧
    (parse_n1 ["RAYYAN-INCLUSION: \x7bbad\x7d"]).2.2.1 = "" :=
  ⟨rfl, rfl, c5_malformed_payload_recovers _ _ rfl rfl⟩

/-- C7: a non-blank, non-end-marker line contributes a field exactly when
positions 2–6 strip to a single hyphen — the tag is `line[:2]` and the
value `line[6:].strip()` is appended to that tag's sequence — and is
otherwise silently ignored: parsing continues with the accumulator
unchanged. -/
theorem c7_field_line_shape (l : String) (ls : List String) (r : Rec)
    (h1 : l ≠ "") (h2 : isEndMarker l = false) :
    prfGo (l :: ls) r
      = prfGo ls
          (if pyStrip ((l.data.drop 2).take 4) = ['-'] then
            r ++ [(String.mk (l.data.take 2), String.mk (pyStrip (l.data.drop 6)))]
          else r) := by
  simp [prfGo, h1, h2, stepLine]

/-- C7 witness: a line with a malformed delimiter region is ignored; a
well-formed line contributes its field. -/
theorem c7_field_line_witness :
    prfGo ["za - v"] [] = [] ∧
    prfGo ["AU  - Jones", "ER  -"] [] = [[("AU", "Jones")]] := by
  constructor
  · rw [c7_field_line_shape "za - v" [] [] (by decide) (by decide)]
    decide
  · rw [c7_field_line_shape "AU  - Jones" ["ER  -"] [] (by decide) (by decide)]
    decide

/-- C9: in the row built for a record, the First Author cell is the first
AU value and the Other Authors cell is the remaining AU values joined by
"; " in their original order; with no AU values both cells are empty. -/
theorem c9_author_split (rec : Rec) :
    (∀ a as, recGet rec "AU" = a :: as →
      ((parsedRowOf rec).find? (fun p => p.1 == "First Author")).map Prod.snd
          = some (Cell.s a) ∧
      ((parsedRowOf rec).find? (fun p => p.1 == "Other Authors")).map Prod.snd
          = some (Cell.s (String.mk (joinSemi as)))) ∧
    (recGet rec "AU" = [] →
      ((parsedRowOf rec).find? (fun p => p.1 == "First Author")).map Prod.snd
          = some (Cell.s "") ∧
      ((parsedRowOf rec).find? (fun p => p.1 == "Other Authors")).map Prod.snd
          = some (Cell.s "")) := by
  have eFA : (parsedRowOf rec).find? (fun p => p.1 == "First Author")
      = some ("First Author",
          Cell.s (match recGet rec "AU" with | a :: _ => a | [] => "")) := rfl
  have eOA : (parsedRowOf rec).find? (fun p => p.1 == "Other Authors")
      = some ("Other Authors",
          Cell.s (String.mk (joinSemi (recGet rec "AU").tail))) := rfl
  constructor
  · intro a as h
    rw [eFA, eOA, h]
    exact ⟨rfl, rfl⟩
  · intro h
    rw [eFA, eOA, h]
    exact ⟨rfl, rfl⟩

/-- C9 witness: three authors split into first and "; "-joined rest. -/
theorem c9_author_split_witness :
    recGet [("AU", "A"), ("AU", "B"), ("AU", "C")] "AU" = ["A", "B", "C"] ∧
    ((parsedRowOf [("AU", "A"), ("AU", "B"), ("AU", "C")]).find?
        (fun p => p.1 == "First Author")).map Prod.snd = some (Cell.s "A") ∧
    ((parsedRowOf [("AU", "A"), ("AU", "B"), ("AU", "C")]).find?
        (fun p => p.1 == "Other Authors")).map Prod.snd = some (Cell.s "B; C") := by
  have h := (c9_author_split [("AU", "A"), ("AU", "B"), ("AU", "C")]).1 "A" ["B", "C"] rfl
  exact ⟨rfl, h.1, h.2⟩

/-- C10 counterexample: in this note text the inclusion label occurs
twice; the earlier occurrence (position 0) does not complete the pattern
(no brace group follows), so the verdicts are taken from the later
occurrence — a later occurrence does contribute verdicts. -/
theorem c10_counterexample_second_occurrence :
    matchInclAt (n1Text ["RAYYAN-INCLUSION: none | RAYYAN-INCLUSION: \x7b\x22Rita\x22=>\x22Yes\x22, \x22Jules\x22=>\x22Yes\x22\x7d"]) 0 = none ∧
    parse_n1 ["RAYYAN-INCLUSION: none | RAYYAN-INCLUSION: \x7b\x22Rita\x22=>\x22Yes\x22, \x22Jules\x22=>\x22Yes\x22\x7d"]
      = ("Yes", "Yes", "Yes", []) :=
  ⟨rfl, rfl⟩

/-- C3 counterexample: a record whose only exclusion reason is the literal
label `_reasons` makes the one-hot loop overwrite the helper column, which
the final drop then removes: the reason is in the union of the per-record
reason sets, yet the output table has no column for it at all. -/
theorem c3_counterexample_reasons_collision :
    reasonsOf [("N1", "RAYYAN-EXCLUSION-REASONS: _reasons")] = ["_reasons"] ∧
    (build_dataframe [[("N1", "RAYYAN-EXCLUSION-REASONS: _reasons")]]).map
        (fun f => f.map Prod.fst)
      = Except.ok baseNames :=
  ⟨rfl, rfl⟩

/-- Lines with no end marker leave no record behind, whatever the
accumulator holds: sealing happens only on an end-marker line. -/
theorem prfGo_no_marker (tl : List String) :
    ∀ r, (∀ l ∈ tl, isEndMarker l = false) → prfGo tl r = [] := by
  induction tl with
  | nil => intro r _; rfl
  | cons l ls ih =>
    intro r h
    have hl : isEndMarker l = false := h l (by simp)
    have hrest : ∀ x ∈ ls, isEndMarker x = false := fun x hx => h x (by simp [hx])
    by_cases hb : l = ""
    · subst hb
      simpa [prfGo] using ih r hrest
    · simpa [prfGo, hb, hl] using ih (stepLine r l) hrest

/-- Running the parser over marker-free lines folds them into the
accumulator with `stepLine`. -/
theorem prfGo_append_fields (b : List String) :
    ∀ (r : Rec) (rest : List String), (∀ l ∈ b, isEndMarker l = false) →
      prfGo (b ++ rest) r = prfGo rest (b.foldl stepLine r) := by
  induction b with
  | nil => intro r rest _; rfl
  | cons l ls ih =>
    intro r rest h
    have hl : isEndMarker l = false := h l (by simp)
    have hrest : ∀ x ∈ ls, isEndMarker x = false := fun x hx => h x (by simp [hx])
    by_cases hb : l = ""
    · subst hb
      have hstep : stepLine r "" = r := rfl
      simp only [List.cons_append, prfGo, if_pos rfl, List.foldl_cons, hstep]
      exact ih r rest hrest
    · simp only [List.cons_append, prfGo, hb, if_false, hl, List.foldl_cons,
        Bool.false_eq_true, if_neg, ite_false]
      exact ih (stepLine r l) rest hrest

/-- An end-marker line seals a non-empty accumulator and resets it. -/
theorem prfGo_marker (er : String) (ls : List String) (r : Rec)
    (h : isEndMarker er = true) :
    prfGo (er :: ls) r = (if r = [] then prfGo ls [] else r :: prfGo ls []) := by
  have hne : ¬(er = "") := by
    intro e; subst e; exact absurd h (by decide)
  simp [prfGo, hne, h]

/-- C1: the parser emits exactly the non-empty records terminated by an
explicit end-marker line, one each and in original input order; a trailing
run of lines with no following end marker contributes nothing to the
output. -/
theorem c1_terminated_records_roundtrip (blocks : List (List String))
    (er : String) (tl : List String) (her : isEndMarker er = true)
    (hb : ∀ b ∈ blocks, ∀ l ∈ b, isEndMarker l = false)
    (htl : ∀ l ∈ tl, isEndMarker l = false) :
    parse_ris_file ((blocks.map (fun b => b ++ [er])).flatten ++ tl)
      = (blocks.map (fun b => b.foldl stepLine [])).filter (fun r => !(r == [])) := by
  unfold parse_ris_file
  induction blocks with
  | nil => simpa using prfGo_no_marker tl [] htl
  | cons b bs ih =>
    have hfields : ∀ l ∈ b, isEndMarker l = false := hb b (by simp)
    have hbs : ∀ x ∈ bs, ∀ l ∈ x, isEndMarker l = false :=
      fun x hx => hb x (by simp [hx])
    have hsplit : ((b :: bs).map (fun x => x ++ [er])).flatten ++ tl
        = b ++ (er :: ((bs.map (fun x => x ++ [er])).flatten ++ tl)) := by
      simp
    rw [hsplit, prfGo_append_fields b [] _ hfields, prfGo_marker er _ _ her]
    by_cases hz : b.foldl stepLine [] = []
    · simp only [hz, if_pos rfl, List.map_cons, List.filter_cons]
      rw [ih hbs]
      simp [hz]
    · simp only [hz, if_neg hz, List.map_cons, List.filter_cons]
      rw [ih hbs]
      simp [hz]

/-- C1 witness: one real record, one record of only blank-or-malformed
lines, one empty record, and a trailing unterminated record. -/
theorem c1_roundtrip_witness :
    isEndMarker "ER  -" = true ∧
    parse_ris_file
        (([["TI  - A"], [], ["junk"]].map (fun b => b ++ ["ER  -"])).flatten
          ++ ["AU  - C"])
      = [[("TI", "A")]] := by
  constructor
  · decide
  · rw [c1_terminated_records_roundtrip [["TI  - A"], [], ["junk"]] "ER  -"
      ["AU  - C"] (by decide) (by decide) (by decide)]
    decide

/-- When the reasons label sits at the head of the text the reasons regex
matches right there. -/
theorem searchExcl_label_head (cs : List Char)
    (h : exclLabel.isPrefixOf cs = true) :
    searchExcl cs
      = some (((cs.drop exclLabel.length).dropWhile isPyWs).takeWhile (· ≠ '|')) := by
  cases cs with
  | nil => exact absurd h (by decide)
  | cons c rest => simp [searchExcl, h]

/-- When the reasons label does not sit at the head, the scan moves one
position right. -/
theorem searchExcl_skip (c : Char) (rest : List Char)
    (h : exclLabel.isPrefixOf (c :: rest) = false) :
    searchExcl (c :: rest) = searchExcl rest := by
  simp [searchExcl, h]

/-- The reasons regex, evaluated on a text decomposed around the first
occurrence of its label: the payload is the whitespace-skipped run of
non-bar characters after the label. -/
theorem searchExcl_decomp (pre suf : List Char)
    (hfirst : ∀ i, i < pre.length →
      exclLabel.isPrefixOf ((pre ++ exclLabel ++ suf).drop i) = false) :
    searchExcl (pre ++ exclLabel ++ suf)
      = some ((suf.dropWhile isPyWs).takeWhile (· ≠ '|')) := by
  induction pre with
  | nil =>
    have h : exclLabel.isPrefixOf (exclLabel ++ suf) = true := by
      rw [List.isPrefixOf_iff_prefix]
      exact List.prefix_append _ _
    rw [List.nil_append, searchExcl_label_head _ h, List.drop_left]
  | cons c pre' ih =>
    have h0 := hfirst 0 (by simp)
    simp only [List.drop_zero] at h0
    rw [List.cons_append, List.cons_append] at h0 ⊢
    rw [searchExcl_skip c _ h0]
    refine ih (fun i hi => ?_)
    have := hfirst (i + 1) (by simpa using Nat.succ_lt_succ hi)
    simpa [List.drop_succ_cons] using this

/-- Comma splitting never produces an empty piece list. -/
theorem splitComma_ne_nil (l : List Char) : splitComma l ≠ [] := by
  cases l with
  | nil => simp [splitComma]
  | cons c cs =>
    simp only [splitComma]
    split
    · simp
    · split <;> simp

/-- Stripping ignores a leading whitespace character. -/
theorem pyStrip_cons_ws (c : Char) (h : List Char) (hc : isPyWs c = true) :
    pyStrip (c :: h) = pyStrip h := by
  simp [pyStrip, List.dropWhile_cons, hc]

/-- A leading whitespace character (other than a comma or a bar, which
whitespace never is) does not change the cleaned reason list: it is
stripped from the first comma piece. -/
theorem cleanReasons_cons_ws (c : Char) (p : List Char) (hc : isPyWs c = true) :
    cleanReasons (c :: p) = cleanReasons p := by
  have hcomma : ¬(c = ',') := by
    intro e; subst e; exact absurd hc (by decide)
  cases hsp : splitComma p with
  | nil => exact absurd hsp (splitComma_ne_nil p)
  | cons h t =>
    simp [cleanReasons, splitComma, hcomma, hsp, pyStrip_cons_ws c h hc]

/-- Skipping the leading whitespace before taking the run of non-bar
characters changes nothing after per-piece stripping: the regex's `\s*`
prefix skip is invisible in the cleaned reason list. -/
theorem cleanReasons_dropWhile_ws (l : List Char) :
    cleanReasons ((l.dropWhile isPyWs).takeWhile (· ≠ '|'))
      = cleanReasons (l.takeWhile (· ≠ '|')) := by
  induction l with
  | nil => rfl
  | cons c cs ih =>
    by_cases hc : isPyWs c = true
    · have hbar : c ≠ '|' := by
        intro e; subst e; exact absurd hc (by decide)
      rw [List.dropWhile_cons, if_pos hc, ih, List.takeWhile_cons,
        if_pos (by simpa using hbar), cleanReasons_cons_ws c _ hc]
    · rw [List.dropWhile_cons, if_neg hc]

/-- C8: for a note text containing the reasons label (decomposed around
its first occurrence), the decoded reason list is the text after the label
up to the next bar separator or the end of the string, split on commas,
each piece trimmed, empty pieces dropped. -/
theorem c8_reason_list_extraction (vals : List String) (pre suf : List Char)
    (hsplit : n1Text vals = pre ++ exclLabel ++ suf)
    (hfirst : ∀ i, i < pre.length →
      exclLabel.isPrefixOf ((pre ++ exclLabel ++ suf).drop i) = false) :
    (parse_n1 vals).2.2.2 = cleanReasons (suf.takeWhile (· ≠ '|')) := by
  have hs := searchExcl_decomp pre suf hfirst
  rw [← hsplit] at hs
  simp only [parse_n1, hs]
  simpa using cleanReasons_dropWhile_ws suf

/-- C8 witness: a label preceded by two characters, with payload cut at
the bar: pieces are trimmed and the empty piece between the two commas is
dropped. -/
theorem c8_reason_list_witness :
    n1Text ["x RAYYAN-EXCLUSION-REASONS:  Duplicate ,, Wrong population | z"]
        = ('x' :: ' ' :: []) ++ exclLabel
          ++ "  Duplicate ,, Wrong population | z".data ∧
    (parse_n1 ["x RAYYAN-EXCLUSION-REASONS:  Duplicate ,, Wrong population | z"]).2.2.2
        = cleanReasons ("  Duplicate ,, Wrong population | z".data.takeWhile (· ≠ '|')) ∧
    (parse_n1 ["x RAYYAN-EXCLUSION-REASONS:  Duplicate ,, Wrong population | z"]).2.2.2
        = ["Duplicate", "Wrong population"] := by
  refine ⟨rfl, ?_, ?_⟩
  · exact c8_reason_list_extraction _ ('x' :: ' ' :: []) _ rfl (by decide)
  · rw [c8_reason_list_extraction _ ('x' :: ' ' :: []) _ rfl (by decide)]
    decide

/-- Shifting the inclusion attempt position steps past the head
character. -/
theorem matchInclAt_succ (c : Char) (rest : List Char) (j : Nat) :
    matchInclAt (c :: rest) (j + 1) = matchInclAt rest j := by
  simp [matchInclAt, List.drop_succ_cons]

/-- Shifting the reasons attempt position steps past the head character. -/
theorem matchExclAt_succ (c : Char) (rest : List Char) (j : Nat) :
    matchExclAt (c :: rest) (j + 1) = matchExclAt rest j := by
  simp [matchExclAt, List.drop_succ_cons]

/-- The inclusion search returns exactly the attempt at the leftmost
position where the whole pattern (label, whitespace, brace group)
completes: every earlier position fails. -/
theorem searchIncl_eq_some_iff (cs g : List Char) :
    searchIncl cs = some g ↔
      ∃ i, matchInclAt cs i = some g ∧ ∀ j, j < i → matchInclAt cs j = none := by
  induction cs with
  | nil =>
    constructor
    · intro h; exact absurd h (by simp [searchIncl])
    · rintro ⟨i, hi, -⟩
      have hz : matchInclAt ([] : List Char) i = none := by
        unfold matchInclAt; rw [List.drop_nil]; decide
      simp [hz] at hi
  | cons c rest ih =>
    by_cases hp : inclLabel.isPrefixOf (c :: rest) = true
    · cases ht : tryBrace ((c :: rest).drop inclLabel.length) with
      | some g' =>
        constructor
        · intro h
          have hval : g' = g := by
            have := h; simp [searchIncl, hp, ht] at this; exact this
          refine ⟨0, ?_, fun j hj => absurd hj (Nat.not_lt_zero j)⟩
          unfold matchInclAt
          simp only [List.drop_zero]
          rw [if_pos hp, ht, hval]
        · rintro ⟨i, hi, hj⟩
          cases i with
          | zero =>
            unfold matchInclAt at hi
            simp only [List.drop_zero] at hi
            rw [if_pos hp, ht] at hi
            simp [searchIncl, hp, ht]
            exact Option.some_inj.mp hi
          | succ i' =>
            have h0 := hj 0 (Nat.succ_pos i')
            unfold matchInclAt at h0
            simp only [List.drop_zero] at h0
            rw [if_pos hp, ht] at h0
            exact absurd h0 (by simp)
      | none =>
        have hstep : searchIncl (c :: rest) = searchIncl rest := by
          simp [searchIncl, hp, ht]
        have hz : matchInclAt (c :: rest) 0 = none := by
          unfold matchInclAt
          simp only [List.drop_zero]
          rw [if_pos hp, ht]
        rw [hstep, ih]
        constructor
        · rintro ⟨i, hi, hj⟩
          refine ⟨i + 1, by simpa [matchInclAt_succ] using hi, ?_⟩
          intro j hjlt
          cases j with
          | zero => exact hz
          | succ k => rw [matchInclAt_succ]; exact hj k (by omega)
        · rintro ⟨i, hi, hj⟩
          cases i with
          | zero => rw [hz] at hi; exact absurd hi (by simp)
          | succ i' =>
            refine ⟨i', by simpa [matchInclAt_succ] using hi, ?_⟩
            intro k hk
            have := hj (k + 1) (by omega)
            simpa [matchInclAt_succ] using this
    · have hp' : inclLabel.isPrefixOf (c :: rest) = false :=
        Bool.eq_false_iff.mpr hp
      have hstep : searchIncl (c :: rest) = searchIncl rest := by
        simp [searchIncl, hp']
      have hz : matchInclAt (c :: rest) 0 = none := by
        unfold matchInclAt
        simp only [List.drop_zero]
        rw [if_neg (by simp [hp'])]
      rw [hstep, ih]
      constructor
      · rintro ⟨i, hi, hj⟩
        refine ⟨i + 1, by simpa [matchInclAt_succ] using hi, ?_⟩
        intro j hjlt
        cases j with
        | zero => exact hz
        | succ k => rw [matchInclAt_succ]; exact hj k (by omega)
      · rintro ⟨i, hi, hj⟩
        cases i with
        | zero => rw [hz] at hi; exact absurd hi (by simp)
        | succ i' =>
          refine ⟨i', by simpa [matchInclAt_succ] using hi, ?_⟩
          intro k hk
          have := hj (k + 1) (by omega)
          simpa [matchInclAt_succ] using this

/-- The reasons search returns exactly the attempt at the leftmost
position where its label sits: the pattern completes at every label
occurrence, so the first occurrence wins. -/
theorem searchExcl_eq_some_iff (cs g : List Char) :
    searchExcl cs = some g ↔
      ∃ i, matchExclAt cs i = some g ∧ ∀ j, j < i → matchExclAt cs j = none := by
  induction cs with
  | nil =>
    constructor
    · intro h; exact absurd h (by simp [searchExcl])
    · rintro ⟨i, hi, -⟩
      have hz : matchExclAt ([] : List Char) i = none := by
        unfold matchExclAt; rw [List.drop_nil]; decide
      simp [hz] at hi
  | cons c rest ih =>
    by_cases hp : exclLabel.isPrefixOf (c :: rest) = true
    · constructor
      · intro h
        refine ⟨0, ?_, fun j hj => absurd hj (Nat.not_lt_zero j)⟩
        unfold matchExclAt
        simp only [List.drop_zero]
        rw [if_pos hp]
        simpa [searchExcl, hp] using h
      · rintro ⟨i, hi, hj⟩
        cases i with
        | zero =>
          unfold matchExclAt at hi
          simp only [List.drop_zero] at hi
          rw [if_pos hp] at hi
          simpa [searchExcl, hp] using hi
        | succ i' =>
          have h0 := hj 0 (Nat.succ_pos i')
          unfold matchExclAt at h0
          simp only [List.drop_zero] at h0
          rw [if_pos hp] at h0
          exact absurd h0 (by simp)
    · have hp' : exclLabel.isPrefixOf (c :: rest) = false :=
        Bool.eq_false_iff.mpr hp
      have hz : matchExclAt (c :: rest) 0 = none := by
        unfold matchExclAt
        simp only [List.drop_zero]
        rw [if_neg (by simp [hp'])]
      rw [searchExcl_skip c rest hp', ih]
      constructor
      · rintro ⟨i, hi, hj⟩
        refine ⟨i + 1, by simpa [matchExclAt_succ] using hi, ?_⟩
        intro j hjlt
        cases j with
        | zero => exact hz
        | succ k => rw [matchExclAt_succ]; exact hj k (by omega)
      · rintro ⟨i, hi, hj⟩
        cases i with
        | zero => rw [hz] at hi; exact absurd hi (by simp)
        | succ i' =>
          refine ⟨i', by simpa [matchExclAt_succ] using hi, ?_⟩
          intro k hk
          have := hj (k + 1) (by omega)
          simpa [matchExclAt_succ] using this

/-- C10 (amended): the decoder uses, for each label, only the leftmost
position at which the full regex pattern completes — for the inclusion
label this is the first occurrence followed, after optional whitespace, by
a brace-delimited group; for the reasons label it is the first occurrence
outright — and occurrences after that position contribute nothing. -/
theorem c10_amended_leftmost_full_match (cs g : List Char) :
    (searchIncl cs = some g ↔
      ∃ i, matchInclAt cs i = some g ∧ ∀ j, j < i → matchInclAt cs j = none) ∧
    (searchExcl cs = some g ↔
      ∃ i, matchExclAt cs i = some g ∧ ∀ j, j < i → matchExclAt cs j = none) :=
  ⟨searchIncl_eq_some_iff cs g, searchExcl_eq_some_iff cs g⟩

/-- The sorted reason list never repeats a label. -/
theorem sortedReasons_nodup (records : List Rec) : (sortedReasons records).Nodup :=
  (List.perm_insertionSort pyLe _).nodup_iff.mpr (List.nodup_dedup _)

/-- A label is a reason column name exactly when some record's own reason
set holds it. -/
theorem sortedReasons_mem (records : List Rec) (s : String) :
    s ∈ sortedReasons records ↔ ∃ rec ∈ records, s ∈ reasonsOf rec := by
  unfold sortedReasons
  rw [(List.perm_insertionSort pyLe _).mem_iff, List.mem_dedup, List.mem_flatMap]

/-- The reason column names are sorted by Python's string order. -/
theorem sortedReasons_sorted (records : List Rec) :
    List.Sorted pyLe (sortedReasons records) :=
  List.sorted_insertionSort pyLe _

/-- The sorted reason list only depends on the multiset of records:
reordering records leaves it unchanged. -/
theorem sortedReasons_perm_invariant (rs₁ rs₂ : List Rec) (h : rs₁.Perm rs₂) :
    sortedReasons rs₁ = sortedReasons rs₂ := by
  refine List.eq_of_perm_of_sorted ?_ (sortedReasons_sorted rs₁) (sortedReasons_sorted rs₂)
  rw [List.perm_ext_iff_of_nodup (sortedReasons_nodup rs₁) (sortedReasons_nodup rs₂)]
  intro a
  rw [sortedReasons_mem, sortedReasons_mem]
  constructor
  · rintro ⟨rec, hrec, hs⟩; exact ⟨rec, h.mem_iff.mp hrec, hs⟩
  · rintro ⟨rec, hrec, hs⟩; exact ⟨rec, h.mem_iff.mpr hrec, hs⟩

/-- Elements already seen are all dropped. -/
theorem dedupFirstGo_all_seen (l : List String) :
    ∀ seen, (∀ x ∈ l, seen.contains x = true) → dedupFirstGo seen l = [] := by
  induction l with
  | nil => intro seen _; rfl
  | cons x xs ih =>
    intro seen h
    have hx : seen.contains x = true := h x (by simp)
    simp only [dedupFirstGo, hx, if_pos]
    exact ih seen (fun y hy => h y (by simp [hy]))

/-- Splitting a first-occurrence dedup at an append point: the tail is
deduplicated against a seen set holding the old seen set and the front. -/
theorem dedupFirstGo_append (l₁ : List String) :
    ∀ (seen l₂ : List String), ∃ s',
      dedupFirstGo seen (l₁ ++ l₂) = dedupFirstGo seen l₁ ++ dedupFirstGo s' l₂ ∧
      ∀ x, s'.contains x = true ↔ (seen.contains x = true ∨ x ∈ l₁) := by
  induction l₁ with
  | nil => intro seen l₂; exact ⟨seen, rfl, fun x => by simp⟩
  | cons c l₁' ih =>
    intro seen l₂
    by_cases hc : seen.contains c = true
    · obtain ⟨s', he, hs⟩ := ih seen l₂
      refine ⟨s', ?_, ?_⟩
      · simp only [List.cons_append, dedupFirstGo, hc, if_pos]
        exact he
      · intro x
        rw [hs x]
        constructor
        · rintro (h | h)
          · exact Or.inl h
          · exact Or.inr (List.mem_cons_of_mem _ h)
        · rintro (h | h)
          · exact Or.inl h
          · rcases List.mem_cons.mp h with rfl | h
            · exact Or.inl hc
            · exact Or.inr h
    · have hc' : seen.contains c = false := Bool.eq_false_iff.mpr hc
      obtain ⟨s', he, hs⟩ := ih (c :: seen) l₂
      refine ⟨s', ?_, ?_⟩
      · simp only [List.cons_append, dedupFirstGo, hc', Bool.false_eq_true, if_false,
          ite_false, if_neg, List.append_eq]
        rw [he]
      · intro x
        rw [hs x]
        simp only [List.contains_cons, Bool.or_eq_true, beq_iff_eq, List.mem_cons]
        tauto

/-- Appending elements that all occur in the front changes nothing in a
first-occurrence dedup. -/
theorem dedupFirst_append_absorb (l₁ l₂ : List String)
    (h : ∀ x ∈ l₂, x ∈ l₁) : dedupFirst (l₁ ++ l₂) = dedupFirst l₁ := by
  obtain ⟨s', he, hs⟩ := dedupFirstGo_append l₁ [] l₂
  unfold dedupFirst
  rw [he, dedupFirstGo_all_seen l₂ s' (fun x hx => (hs x).mpr (Or.inr (h x hx)))]
  simp

/-- Building the pandas frame from the parsed rows of a non-empty record
list yields exactly the thirteen base columns, each computed pointwise per
record. -/
theorem initFrame_applyCols (records : List Rec) (h : records ≠ []) :
    initFrame (records.map parsedRowOf) = applyCols baseColFuns records := by
  obtain ⟨r0, rs, rfl⟩ := List.exists_cons_of_ne_nil h
  have hrowkeys : ∀ rec : Rec, (parsedRowOf rec).map Prod.fst
      = baseColFuns.map Prod.fst := fun rec => rfl
  have hflat : ((r0 :: rs).map parsedRowOf).flatMap (fun r => r.map Prod.fst)
      = baseColFuns.map Prod.fst
        ++ (rs.map parsedRowOf).flatMap (fun r => r.map Prod.fst) := by
    simp only [List.map_cons, List.flatMap_cons, hrowkeys r0]
  have hkeys : dedupFirst (((r0 :: rs).map parsedRowOf).flatMap (fun r => r.map Prod.fst))
      = baseColFuns.map Prod.fst := by
    rw [hflat, dedupFirst_append_absorb]
    · decide
    · intro x hx
      rw [List.mem_flatMap] at hx
      obtain ⟨row, hrow, hxr⟩ := hx
      obtain ⟨rec, _, rfl⟩ := List.mem_map.mp hrow
      rwa [hrowkeys rec] at hxr
  unfold initFrame
  rw [hkeys]
  simp only [baseColFuns, List.map_cons, List.map_nil, applyCols, List.map_map]
  rfl

/-- Column lookup commutes with pointwise materialization. -/
theorem getCol_applyCols (funs : List ColFun) (rs : List Rec) (n : String) :
    getCol (applyCols funs rs) n = (getColF funs n).map (fun g => rs.map g) := by
  unfold getCol getColF applyCols
  rw [List.find?_map, Option.map_map, Option.map_map]
  rfl

/-- Column-presence tests ignore materialization. -/
theorem any_applyCols (funs : List ColFun) (rs : List Rec) (n : String) :
    (applyCols funs rs).any (fun p => p.1 == n) = funs.any (fun p => p.1 == n) := by
  induction funs with
  | nil => rfl
  | cons f fs ih =>
    simp only [applyCols, List.map_cons, List.any_cons] at ih ⊢
    rw [ih]

/-- Column assignment commutes with pointwise materialization when the
assigned values are themselves computed pointwise. -/
theorem setCol_applyCols (funs : List ColFun) (rs : List Rec) (n : String)
    (g : Rec → Cell) :
    setCol (applyCols funs rs) n (rs.map g) = applyCols (setColF funs n g) rs := by
  unfold setCol setColF
  rw [any_applyCols]
  by_cases h : funs.any (fun p => p.1 == n) = true
  · rw [if_pos h, if_pos h]
    unfold applyCols
    rw [List.map_map, List.map_map]
    apply List.map_congr_left
    intro p _
    by_cases hp : (p.1 == n) = true
    · simp [Function.comp, hp]
    · simp [Function.comp, hp]
  · rw [if_neg h, if_neg h]
    simp [applyCols]

/-- Dropping a present column commutes with pointwise materialization. -/
theorem dropCol_applyCols (funs : List ColFun) (rs : List Rec) (n : String)
    (h : funs.any (fun p => p.1 == n) = true) :
    dropCol (applyCols funs rs) n
      = Except.ok (applyCols (funs.filter (fun p => p.1 != n)) rs) := by
  unfold dropCol
  rw [any_applyCols, if_pos h]
  unfold applyCols
  rw [List.filter_map]
  rfl

/-- Column assignment preserves the presence of every column label. -/
theorem getColF_isSome_setColF (funs : List ColFun) (n m : String)
    (g : Rec → Cell) (h : (getColF funs m).isSome = true) :
    (getColF (setColF funs n g) m).isSome = true := by
  unfold getColF at h ⊢
  unfold setColF
  by_cases hany : funs.any (fun p => p.1 == n) = true
  · rw [if_pos hany, List.find?_map]
    have hpred : ((fun p : ColFun => p.1 == m)
          ∘ (fun p : ColFun => if p.1 == n then (p.1, g) else p))
        = fun p : ColFun => p.1 == m := by
      funext p
      by_cases hp : (p.1 == n) = true <;> simp [Function.comp, hp]
    rw [hpred]
    simpa using h
  · rw [if_neg hany, List.find?_append]
    cases hf : funs.find? (fun p => p.1 == m) with
    | none => rw [hf] at h; simp at h
    | some p => simp [hf, Option.or]

/-- The one-hot loop commutes with pointwise materialization: it always
succeeds as long as the helper `_reasons` column exists (which assignment
preserves), and its outcome is the materialization of the described
columns. -/
theorem addReasonCols_commute (rs : List Rec) (todo : List String) :
    ∀ funs : List ColFun, (getColF funs "_reasons").isSome = true →
      ∃ funs', addReasonColsF funs todo = some funs' ∧
        addReasonCols (applyCols funs rs) todo = Except.ok (applyCols funs' rs) ∧
        (getColF funs' "_reasons").isSome = true := by
  induction todo with
  | nil => intro funs h; exact ⟨funs, rfl, rfl, h⟩
  | cons r rest ih =>
    intro funs h
    obtain ⟨g, hg⟩ := Option.isSome_iff_exists.mp h
    have hcol : getCol (applyCols funs rs) "_reasons" = some (rs.map g) := by
      rw [getCol_applyCols, hg]
      rfl
    obtain ⟨funs', h1, h2, h3⟩ :=
      ih (setColF funs r (fun rec => Cell.s (if cellHasReason r (g rec) then "Yes" else "")))
        (getColF_isSome_setColF funs r "_reasons" _ h)
    refine ⟨funs', ?_, ?_, h3⟩
    · simp only [addReasonColsF, hg]
      exact h1
    · simp only [addReasonCols, hcol]
      rw [List.map_map]
      have := setCol_applyCols funs rs r
        (fun rec => Cell.s (if cellHasReason r (g rec) then "Yes" else ""))
      rw [show ((fun c => Cell.s (if cellHasReason r c then "Yes" else "")) ∘ g)
          = (fun rec => Cell.s (if cellHasReason r (g rec) then "Yes" else "")) from rfl,
        this]
      exact h2

/-- Any present column label makes the presence test true. -/
theorem any_of_getColF_isSome (funs : List ColFun) (m : String)
    (h : (getColF funs m).isSome = true) :
    funs.any (fun p => p.1 == m) = true := by
  unfold getColF at h
  cases hf : funs.find? (fun p => p.1 == m) with
  | none => rw [hf] at h; simp at h
  | some p =>
    have := List.find?_some hf
    have hmem := List.mem_of_find?_eq_some hf
    exact List.any_eq_true.mpr ⟨p, hmem, this⟩

/-- Master description of `build_dataframe` on a non-empty record list:
it succeeds, and its result is the pointwise materialization of the base
columns transformed by the one-hot loop, with the `_reasons` column
dropped. -/
theorem build_dataframe_eq (records : List Rec) (h : records ≠ []) :
    ∃ funs', addReasonColsF baseColFuns (sortedReasons records) = some funs' ∧
      build_dataframe records
        = Except.ok (applyCols (funs'.filter (fun p => p.1 != "_reasons")) records) ∧
      (getColF funs' "_reasons").isSome = true := by
  obtain ⟨funs', h1, h2, h3⟩ :=
    addReasonCols_commute records (sortedReasons records) baseColFuns (by rfl)
  refine ⟨funs', h1, ?_, h3⟩
  unfold build_dataframe
  show (match addReasonCols (initFrame (records.map parsedRowOf)) (sortedReasons records) with
    | Except.error e => Except.error e
    | Except.ok df2 => dropCol df2 "_reasons") = _
  rw [initFrame_applyCols records h, h2]
  exact dropCol_applyCols funs' records "_reasons" (any_of_getColF_isSome funs' _ h3)

/-- The headers of a materialized frame are the described labels. -/
theorem map_fst_applyCols (funs : List ColFun) (rs : List Rec) :
    (applyCols funs rs).map Prod.fst = funs.map Prod.fst := by
  unfold applyCols
  rw [List.map_map]
  rfl

/-- The rows of a materialized frame are the records' images under the
described column functions, one row per record in record order. -/
theorem frameRows_applyCols (funs : List ColFun) (rs : List Rec)
    (h : funs ≠ []) :
    frameRows (applyCols funs rs)
      = rs.map (fun rec => funs.map (fun p => p.2 rec)) := by
  obtain ⟨p0, ps, rfl⟩ := List.exists_cons_of_ne_nil h
  unfold frameRows
  have hn : numRows (applyCols (p0 :: ps) rs) = rs.length := by
    simp [applyCols, numRows]
  rw [hn]
  apply List.ext_getElem
  · simp
  · intro i h1 h2
    rw [List.getElem_map, List.getElem_range, List.getElem_map]
    unfold applyCols
    rw [List.map_map]
    apply List.map_congr_left
    intro q _
    have hi : i < (rs.map q.2).length := by
      simp only [List.length_map]
      simpa using h2
    rw [Function.comp_apply, List.getD_eq_getElem _ _ hi, List.getElem_map]

/-- C6: permuting the parsed records leaves the table's column headers —
base and reason columns alike, in order — unchanged; the data rows are
permuted exactly as the records are. -/
theorem c6_permutation_invariance (rs₁ rs₂ : List Rec) (hperm : rs₁.Perm rs₂)
    (f₁ f₂ : Frame) (h₁ : build_dataframe rs₁ = Except.ok f₁)
    (h₂ : build_dataframe rs₂ = Except.ok f₂) :
    f₁.map Prod.fst = f₂.map Prod.fst ∧ (frameRows f₁).Perm (frameRows f₂) := by
  have hne₁ : rs₁ ≠ [] := by
    rintro rfl
    rw [show build_dataframe []
        = Except.error "KeyError: _reasons not found in axis" from rfl] at h₁
    exact absurd h₁ (by simp)
  have hne₂ : rs₂ ≠ [] := by
    rintro rfl
    rw [show build_dataframe []
        = Except.error "KeyError: _reasons not found in axis" from rfl] at h₂
    exact absurd h₂ (by simp)
  obtain ⟨F₁, e1a, e1b, _⟩ := build_dataframe_eq rs₁ hne₁
  obtain ⟨F₂, e2a, e2b, _⟩ := build_dataframe_eq rs₂ hne₂
  rw [sortedReasons_perm_invariant rs₁ rs₂ hperm] at e1a
  have hF : F₁ = F₂ := by
    rw [e1a] at e2a
    exact Option.some_inj.mp e2a
  subst hF
  rw [h₁] at e1b
  rw [h₂] at e2b
  have hf₁ : f₁ = applyCols (F₁.filter (fun p => p.1 != "_reasons")) rs₁ := by
    simpa using e1b
  have hf₂ : f₂ = applyCols (F₁.filter (fun p => p.1 != "_reasons")) rs₂ := by
    simpa using e2b
  subst hf₁
  subst hf₂
  refine ⟨by rw [map_fst_applyCols, map_fst_applyCols], ?_⟩
  cases hF0 : F₁.filter (fun p => p.1 != "_reasons") with
  | nil => simp [hF0, applyCols, frameRows, numRows]
  | cons p ps =>
    rw [frameRows_applyCols _ _ (by simp), frameRows_applyCols _ _ (by simp)]
    exact hperm.map _

/-- C6 witness: two records, swapped; headers agree, rows swap. -/
theorem c6_permutation_witness :
    ([[("TI", "A"), ("N1", "RAYYAN-EXCLUSION-REASONS: X")], [("TI", "B")]] : List Rec).Perm
        [[("TI", "B")], [("TI", "A"), ("N1", "RAYYAN-EXCLUSION-REASONS: X")]] ∧
    ([("TI", [Cell.s "A", Cell.s "B"]), ("T2", [Cell.s "", Cell.s ""]),
      ("Y2", [Cell.s "", Cell.s ""]), ("Y3", [Cell.s "", Cell.s ""]),
      ("First Author", [Cell.s "", Cell.s ""]), ("Other Authors", [Cell.s "", Cell.s ""]),
      ("AB", [Cell.s "", Cell.s ""]), ("DO", [Cell.s "", Cell.s ""]),
      ("AN", [Cell.s "", Cell.s ""]), ("Rita Decision", [Cell.s "", Cell.s ""]),
      ("Jules Decision", [Cell.s "", Cell.s ""]), ("Agreement", [Cell.s "", Cell.s ""]),
      ("X", [Cell.s "Yes", Cell.s ""])] : Frame).map Prod.fst
      = ([("TI", [Cell.s "B", Cell.s "A"]), ("T2", [Cell.s "", Cell.s ""]),
      ("Y2", [Cell.s "", Cell.s ""]), ("Y3", [Cell.s "", Cell.s ""]),
      ("First Author", [Cell.s "", Cell.s ""]), ("Other Authors", [Cell.s "", Cell.s ""]),
      ("AB", [Cell.s "", Cell.s ""]), ("DO", [Cell.s "", Cell.s ""]),
      ("AN", [Cell.s "", Cell.s ""]), ("Rita Decision", [Cell.s "", Cell.s ""]),
      ("Jules Decision", [Cell.s "", Cell.s ""]), ("Agreement", [Cell.s "", Cell.s ""]),
      ("X", [Cell.s "", Cell.s "Yes"])] : Frame).map Prod.fst ∧
    (frameRows [("TI", [Cell.s "A", Cell.s "B"]), ("T2", [Cell.s "", Cell.s ""]),
      ("Y2", [Cell.s "", Cell.s ""]), ("Y3", [Cell.s "", Cell.s ""]),
      ("First Author", [Cell.s "", Cell.s ""]), ("Other Authors", [Cell.s "", Cell.s ""]),
      ("AB", [Cell.s "", Cell.s ""]), ("DO", [Cell.s "", Cell.s ""]),
      ("AN", [Cell.s "", Cell.s ""]), ("Rita Decision", [Cell.s "", Cell.s ""]),
      ("Jules Decision", [Cell.s "", Cell.s ""]), ("Agreement", [Cell.s "", Cell.s ""]),
      ("X", [Cell.s "Yes", Cell.s ""])]).Perm
      (frameRows [("TI", [Cell.s "B", Cell.s "A"]), ("T2", [Cell.s "", Cell.s ""]),
      ("Y2", [Cell.s "", Cell.s ""]), ("Y3", [Cell.s "", Cell.s ""]),
      ("First Author", [Cell.s "", Cell.s ""]), ("Other Authors", [Cell.s "", Cell.s ""]),
      ("AB", [Cell.s "", Cell.s ""]), ("DO", [Cell.s "", Cell.s ""]),
      ("AN", [Cell.s "", Cell.s ""]), ("Rita Decision", [Cell.s "", Cell.s ""]),
      ("Jules Decision", [Cell.s "", Cell.s ""]), ("Agreement", [Cell.s "", Cell.s ""]),
      ("X", [Cell.s "", Cell.s "Yes"])]) := by
  have h := c6_permutation_invariance
    [[("TI", "A"), ("N1", "RAYYAN-EXCLUSION-REASONS: X")], [("TI", "B")]]
    [[("TI", "B")], [("TI", "A"), ("N1", "RAYYAN-EXCLUSION-REASONS: X")]]
    (by decide)
    [("TI", [Cell.s "A", Cell.s "B"]), ("T2", [Cell.s "", Cell.s ""]),
      ("Y2", [Cell.s "", Cell.s ""]), ("Y3", [Cell.s "", Cell.s ""]),
      ("First Author", [Cell.s "", Cell.s ""]), ("Other Authors", [Cell.s "", Cell.s ""]),
      ("AB", [Cell.s "", Cell.s ""]), ("DO", [Cell.s "", Cell.s ""]),
      ("AN", [Cell.s "", Cell.s ""]), ("Rita Decision", [Cell.s "", Cell.s ""]),
      ("Jules Decision", [Cell.s "", Cell.s ""]), ("Agreement", [Cell.s "", Cell.s ""]),
      ("X", [Cell.s "Yes", Cell.s ""])]
    [("TI", [Cell.s "B", Cell.s "A"]), ("T2", [Cell.s "", Cell.s ""]),
      ("Y2", [Cell.s "", Cell.s ""]), ("Y3", [Cell.s "", Cell.s ""]),
      ("First Author", [Cell.s "", Cell.s ""]), ("Other Authors", [Cell.s "", Cell.s ""]),
      ("AB", [Cell.s "", Cell.s ""]), ("DO", [Cell.s "", Cell.s ""]),
      ("AN", [Cell.s "", Cell.s ""]), ("Rita Decision", [Cell.s "", Cell.s ""]),
      ("Jules Decision", [Cell.s "", Cell.s ""]), ("Agreement", [Cell.s "", Cell.s ""]),
      ("X", [Cell.s "", Cell.s "Yes"])]
    rfl rfl
  exact ⟨by decide, h.1, h.2⟩

/-- When every reason label is fresh (no collision with an existing column
label), the one-hot loop purely appends: the helper column keeps its
original reason-list content throughout, and each new column tests
membership in it. -/
theorem addReasonColsF_fresh (todo : List String) :
    ∀ (funs : List ColFun) (g0 : Rec → Cell),
      getColF funs "_reasons" = some g0 →
      (∀ r ∈ todo, funs.any (fun p => p.1 == r) = false) → todo.Nodup →
      addReasonColsF funs todo
        = some (funs ++ todo.map (fun r =>
            (r, fun rec => Cell.s (if cellHasReason r (g0 rec) then "Yes" else "")))) := by
  induction todo with
  | nil => intro funs g0 _ _ _; simp [addReasonColsF]
  | cons r rest ih =>
    intro funs g0 hg hfresh hnodup
    have hr : funs.any (fun p => p.1 == r) = false := hfresh r (by simp)
    have hset : setColF funs r
          (fun rec => Cell.s (if cellHasReason r (g0 rec) then "Yes" else ""))
        = funs ++ [(r, fun rec => Cell.s (if cellHasReason r (g0 rec) then "Yes" else ""))] := by
      unfold setColF
      rw [if_neg (by simp [hr])]
    have hg' : getColF (funs
          ++ [(r, fun rec => Cell.s (if cellHasReason r (g0 rec) then "Yes" else ""))])
        "_reasons" = some g0 := by
      unfold getColF at hg ⊢
      rw [List.find?_append]
      cases hf : funs.find? (fun p => p.1 == "_reasons") with
      | none => rw [hf] at hg; simp at hg
      | some p => rw [hf] at hg; simpa [Option.or] using hg
    have hfresh' : ∀ x ∈ rest, (funs
          ++ [(r, fun rec => Cell.s (if cellHasReason r (g0 rec) then "Yes" else ""))]).any
        (fun p => p.1 == x) = false := by
      intro x hx
      rw [List.any_append]
      have h1 : funs.any (fun p => p.1 == x) = false := hfresh x (by simp [hx])
      have h2 : ¬(r = x) := by
        rintro rfl
        exact (List.nodup_cons.mp hnodup).1 hx
      simp [h1, h2]
    simp only [addReasonColsF, hg, hset]
    rw [ih _ g0 hg' hfresh' (List.nodup_cons.mp hnodup).2]
    simp

/-- The membership test of the one-hot lambda on an intact reason-list
cell is plain list membership. -/
theorem cellHasReason_list_cell (r : String) (xs : List String) :
    (if cellHasReason r (Cell.l xs) then ("Yes" : String) else "")
      = (if r ∈ xs then "Yes" else "") := by
  by_cases h : r ∈ xs
  · rw [if_pos h, if_pos (by simpa [cellHasReason] using h)]
  · rw [if_neg h, if_neg (by simpa [cellHasReason] using h)]

/-- C3 (amended): provided no record's reason label collides with a base
column name or the internal `_reasons` key, the output table is the twelve
base columns followed by one column per distinct reason label, sorted by
Python's string order; the reason columns are exactly the union of the
per-record reason sets, and every row carries "Yes" in a reason column
exactly when the label is in that record's own reason set, blank
otherwise — including columns contributed only by other records. -/
theorem c3_amended_reason_columns (records : List Rec) (hne : records ≠ [])
    (hfresh : ∀ rec ∈ records, ∀ s ∈ reasonsOf rec, s ∉ baseNames ∧ s ≠ "_reasons") :
    build_dataframe records
      = Except.ok (applyCols (baseColFuns.filter (fun p => p.1 != "_reasons")) records
          ++ (sortedReasons records).map (fun c => (c, reasonColumn c records))) ∧
    List.Sorted pyLe (sortedReasons records) ∧
    (∀ s, s ∈ sortedReasons records ↔ ∃ rec ∈ records, s ∈ reasonsOf rec) := by
  refine ⟨?_, sortedReasons_sorted records, fun s => sortedReasons_mem records s⟩
  have hfresh2 : ∀ r ∈ sortedReasons records, r ∉ baseNames ∧ r ≠ "_reasons" := by
    intro r hr
    obtain ⟨rec, hrec, hrs⟩ := (sortedReasons_mem records r).mp hr
    exact hfresh rec hrec r hrs
  have hfresh' : ∀ r ∈ sortedReasons records,
      baseColFuns.any (fun p => p.1 == r) = false := by
    intro r hr
    obtain ⟨hb, hu⟩ := hfresh2 r hr
    cases hany : baseColFuns.any (fun p => p.1 == r) with
    | false => rfl
    | true =>
      obtain ⟨p, hp, hpr⟩ := List.any_eq_true.mp hany
      have hp1 : p.1 = r := by simpa using hpr
      have hmem : p.1 ∈ baseColFuns.map Prod.fst := List.mem_map_of_mem _ hp
      rw [hp1, show baseColFuns.map Prod.fst = baseNames ++ ["_reasons"] from rfl,
        List.mem_append] at hmem
      rcases hmem with hmem | hmem
      · exact absurd hmem hb
      · simp only [List.mem_singleton] at hmem
        exact absurd hmem hu
  obtain ⟨funs', h1, h2, _⟩ := build_dataframe_eq records hne
  rw [addReasonColsF_fresh (sortedReasons records) baseColFuns
      (fun rec => Cell.l (reasonsOf rec)) rfl hfresh' (sortedReasons_nodup records)] at h1
  have hfuns : funs' = baseColFuns ++ (sortedReasons records).map (fun r =>
      (r, fun rec => Cell.s (if cellHasReason r (Cell.l (reasonsOf rec)) then "Yes" else ""))) :=
    (Option.some_inj.mp h1).symm
  rw [h2, hfuns, List.filter_append]
  have hkeep : ((sortedReasons records).map (fun r =>
      (r, fun rec => Cell.s (if cellHasReason r (Cell.l (reasonsOf rec)) then "Yes" else "")))).filter
        (fun p => p.1 != "_reasons")
      = (sortedReasons records).map (fun r =>
          (r, fun rec => Cell.s (if cellHasReason r (Cell.l (reasonsOf rec)) then "Yes" else ""))) := by
    rw [List.filter_eq_self]
    intro p hp
    obtain ⟨r, hr, rfl⟩ := List.mem_map.mp hp
    simpa using (hfresh2 r hr).2
  rw [hkeep]
  have happend : applyCols (baseColFuns.filter (fun p => p.1 != "_reasons")
        ++ (sortedReasons records).map (fun r =>
          (r, fun rec => Cell.s (if cellHasReason r (Cell.l (reasonsOf rec)) then "Yes" else ""))))
        records
      = applyCols (baseColFuns.filter (fun p => p.1 != "_reasons")) records
        ++ applyCols ((sortedReasons records).map (fun r =>
          (r, fun rec => Cell.s (if cellHasReason r (Cell.l (reasonsOf rec)) then "Yes" else ""))))
          records := by
    unfold applyCols
    rw [List.map_append]
  have hmap : applyCols ((sortedReasons records).map (fun r =>
        (r, fun rec => Cell.s (if cellHasReason r (Cell.l (reasonsOf rec)) then "Yes" else ""))))
        records
      = (sortedReasons records).map (fun c => (c, reasonColumn c records)) := by
    unfold applyCols
    rw [List.map_map]
    apply List.map_congr_left
    intro r _
    simp only [Function.comp_apply]
    refine congrArg (fun col => (r, col)) ?_
    unfold reasonColumn
    apply List.map_congr_left
    intro rec _
    exact congrArg Cell.s (cellHasReason_list_cell r (reasonsOf rec))
  rw [happend, hmap]

/-- C3 witness: two records, one contributing reasons "b" and "a", the
other none; the sorted reason columns are ["a", "b"] and the amended
description of the table holds. -/
theorem c3_amended_witness :
    ([[("N1", "RAYYAN-EXCLUSION-REASONS: b, a")], [("TI", "X")]] : List Rec) ≠ [] ∧
    sortedReasons [[("N1", "RAYYAN-EXCLUSION-REASONS: b, a")], [("TI", "X")]] = ["a", "b"] ∧
    build_dataframe [[("N1", "RAYYAN-EXCLUSION-REASONS: b, a")], [("TI", "X")]]
      = Except.ok (applyCols (baseColFuns.filter (fun p => p.1 != "_reasons"))
            [[("N1", "RAYYAN-EXCLUSION-REASONS: b, a")], [("TI", "X")]]
          ++ (sortedReasons [[("N1", "RAYYAN-EXCLUSION-REASONS: b, a")], [("TI", "X")]]).map
              (fun c => (c,
                reasonColumn c [[("N1", "RAYYAN-EXCLUSION-REASONS: b, a")], [("TI", "X")]]))) := by
  refine ⟨by decide, rfl, ?_⟩
  exact (c3_amended_reason_columns _ (by decide) (by decide)).1
